import Mathlib

/-!
Shallow embedding of the job-orchestration pipeline of `streamlit_app.py`
(Excel data-aggregation front end over S3/Lambda), together with proofs of
the specification's claims about it.

The embedding models:
* JSON values and the subset of `json.loads` the pipeline relies on;
* the storage resolver `get_or_create_bucket`;
* the transfer stage of `process_files` (template and source uploads);
* the result interpreter (success/failure/extracted-items counters);
* the delivery stage `download_files` and the retention stage
  `cleanup_files`, plus the guards in `process_files` that invoke them;
* the progress values reported during a pipeline run.

External effects (S3 calls, Lambda invocation) are passed in as explicit
function-valued parameters, so every definition is executable.
-/

namespace Zaimu

/-- JSON values, as produced by Python's `json.loads` on the payloads this
system exchanges. Numbers are modelled as integers: every numeric field the
pipeline reads (`statusCode`, `extracted_items`) is an integer. -/
inductive Json where
  | null : Json
  | bool (b : Bool) : Json
  | num (n : Int) : Json
  | str (s : String) : Json
  | arr (elems : List Json) : Json
  | obj (fields : List (String × Json)) : Json

/-- First-match lookup in an association list of JSON object fields, the
meaning of Python's `dict.get(key)` for dictionaries without duplicate
keys. -/
def Json.lookup (key : String) : List (String × Json) → Option Json
  | [] => none
  | (k, v) :: rest => if k = key then some v else Json.lookup key rest

/-- Python's `d.get(key)` on a JSON value known to be a dictionary; `none`
when the value is not a dictionary (Python would raise) or the key is
absent. -/
def Json.get? : Json → String → Option Json
  | .obj fields, key => Json.lookup key fields
  | _, _ => none

/-- Whitespace characters skipped by the JSON decoder. -/
def isJsonWs (c : Char) : Bool :=
  c = ' ' || c = '\n' || c = '\t' || c = '\r'

/-- Drop leading JSON whitespace. -/
def skipWs : List Char → List Char
  | [] => []
  | c :: cs => if isJsonWs c then skipWs cs else c :: cs

/-- Read the remaining characters of a JSON string literal (no escape
sequences, which the pipeline's payloads do not use), returning the string
contents and the input after the closing quote. -/
def readStringLit : List Char → Option (List Char × List Char)
  | [] => none
  | c :: cs =>
    if c = '"' then some ([], cs)
    else
      match readStringLit cs with
      | some (s, rest) => some (c :: s, rest)
      | none => none

/-- Split a leading run of decimal digits off a character list. -/
def takeDigits : List Char → List Char × List Char
  | [] => ([], [])
  | c :: cs =>
    if c.isDigit then
      let r := takeDigits cs
      (c :: r.1, r.2)
    else ([], c :: cs)

/-- Value of a list of decimal digit characters, most significant first. -/
def digitsVal (ds : List Char) : Nat :=
  ds.foldl (fun a c => 10 * a + (c.toNat - '0'.toNat)) 0

mutual

/-- Fuel-indexed recursive-descent decoder for the JSON subset exchanged
with the remote function, modelling Python's `json.loads`. Returns the
decoded value and the unconsumed input. -/
def parseVal : Nat → List Char → Option (Json × List Char)
  | 0, _ => none
  | fuel + 1, cs =>
    match skipWs cs with
    | [] => none
    | c :: rest =>
      if c = '{' then
        match skipWs rest with
        | '}' :: r2 => some (.obj [], r2)
        | r2 =>
          match parseFields fuel r2 with
          | some (fs, r3) => some (.obj fs, r3)
          | none => none
      else if c = '[' then
        match skipWs rest with
        | ']' :: r2 => some (.arr [], r2)
        | r2 =>
          match parseElems fuel r2 with
          | some (xs, r3) => some (.arr xs, r3)
          | none => none
      else if c = '"' then
        match readStringLit rest with
        | some (s, r2) => some (.str (String.mk s), r2)
        | none => none
      else if c = 't' then
        match rest with
        | 'r' :: 'u' :: 'e' :: r2 => some (.bool true, r2)
        | _ => none
      else if c = 'f' then
        match rest with
        | 'a' :: 'l' :: 's' :: 'e' :: r2 => some (.bool false, r2)
        | _ => none
      else if c = 'n' then
        match rest with
        | 'u' :: 'l' :: 'l' :: r2 => some (.null, r2)
        | _ => none
      else if c = '-' then
        match takeDigits rest with
        | ([], _) => none
        | (ds, r2) => some (.num (-(digitsVal ds : Int)), r2)
      else if c.isDigit then
        let r := takeDigits (c :: rest)
        some (.num (digitsVal r.1), r.2)
      else none

/-- Decode the elements of a non-empty JSON array, positioned after `[`. -/
def parseElems : Nat → List Char → Option (List Json × List Char)
  | 0, _ => none
  | fuel + 1, cs =>
    match parseVal fuel cs with
    | some (v, rest) =>
      match skipWs rest with
      | ',' :: r2 =>
        match parseElems fuel r2 with
        | some (vs, r3) => some (v :: vs, r3)
        | none => none
      | ']' :: r2 => some ([v], r2)
      | _ => none
    | none => none

/-- Decode the fields of a non-empty JSON object, positioned after `{`. -/
def parseFields : Nat → List Char → Option (List (String × Json) × List Char)
  | 0, _ => none
  | fuel + 1, cs =>
    match skipWs cs with
    | '"' :: r1 =>
      match readStringLit r1 with
      | some (k, r2) =>
        match skipWs r2 with
        | ':' :: r3 =>
          match parseVal fuel r3 with
          | some (v, r4) =>
            match skipWs r4 with
            | ',' :: r5 =>
              match parseFields fuel r5 with
              | some (fs, r6) => some ((String.mk k, v) :: fs, r6)
              | none => none
            | '}' :: r5 => some ([(String.mk k, v)], r5)
            | _ => none
          | none => none
        | _ => none
      | none => none
    | _ => none

end

/-- Python's `json.loads` on a complete document: decode one value and
require that only whitespace remains. -/
def parseJson (s : String) : Option Json :=
  match parseVal (s.length + 1) s.data with
  | some (j, rest) => if skipWs rest = [] then some j else none
  | none => none

/-! ## Storage resolver (`get_or_create_bucket`) -/

/-- The configuration fields of `get_aws_config` that the resolver reads. -/
structure AwsConfig where
  region : String
  bucket_name : String
deriving DecidableEq

/-- Outcome of the `head_bucket` probe: success, or an exception rendered
as its message string (the source matches on `str(e)`). -/
inductive ProbeResult where
  | ok : ProbeResult
  | err (msg : String) : ProbeResult
deriving DecidableEq

/-- One `create_bucket` request: the bucket name and the optional
`LocationConstraint` of the `CreateBucketConfiguration` argument. -/
structure CreateBucketCall where
  bucket : String
  locationConstraint : Option String
deriving DecidableEq

/-- Behaviour of the S3 client as observed by the resolver: the result of
probing the configured bucket, of listing buckets, of a creation request,
and the current timestamp string `%Y%m%d-%H%M%S`. -/
structure S3Env where
  headBucket : ProbeResult
  listBuckets : Except String (List String)
  createBucket : CreateBucketCall → Except String Unit
  now : String

/-- Check whether `needle` occurs as a contiguous run inside `hay`,
modelling Python's `needle in str(e)`. -/
def hasSub (needle : List Char) : List Char → Bool
  | [] => needle.isEmpty
  | c :: cs => needle.isPrefixOf (c :: cs) || hasSub needle cs

/-- The source's test distinguishing an access-denied probe failure:
`"403" in str(e) or "Forbidden" in str(e)`. -/
def isAccessDenied (msg : String) : Bool :=
  hasSub "403".data msg.data || hasSub "Forbidden".data msg.data

/-- Shallow embedding of `get_or_create_bucket`: probe the configured
bucket; on access denial list buckets and take the first, or create a
fresh timestamp-named bucket when none are visible; fail (`none`) on any
other probe error, on a listing error, or on any creation error. -/
def get_or_create_bucket (cfg : AwsConfig) (env : S3Env) : Option String :=
  match env.headBucket with
  | .ok => some cfg.bucket_name
  | .err e =>
    if isAccessDenied e then
      match env.listBuckets with
      | .ok available_buckets =>
        match available_buckets with
        | selected_bucket :: _ => some selected_bucket
        | [] =>
          let new_bucket_name := "excel-aggregator-" ++ env.now
          let result :=
            if cfg.region = "us-east-1" then
              env.createBucket ⟨new_bucket_name, none⟩
            else
              env.createBucket ⟨new_bucket_name, some cfg.region⟩
          match result with
          | .ok _ => some new_bucket_name
          | .error _ => none
      | .error _ => none
    else none

/-- The gate in `init_aws_clients` and `main`: the pipeline proceeds only
when bucket resolution produced a name. -/
def pipelineProceeds (resolved : Option String) : Bool :=
  resolved.isSome

/-! ## Transfer stage: object keys and the upload loop -/

/-- Fuel-indexed decimal rendering of a natural number, most significant
digit first; the fuel only bounds the recursion depth and `natChars`
always supplies enough of it. -/
def natCharsAux : Nat → Nat → List Char
  | 0, _ => []
  | fuel + 1, n =>
    if n < 10 then [Nat.digitChar n]
    else natCharsAux fuel (n / 10) ++ [Nat.digitChar (n % 10)]

/-- Decimal digit characters of a natural number, most significant first —
the rendering Python's f-string applies to a non-negative `int`. -/
def natChars (n : Nat) : List Char :=
  natCharsAux (n + 1) n

/-- Decimal string of a natural number. -/
def natStr (n : Nat) : String :=
  String.mk (natChars n)

/-- Template object key: `templates/<processId>_input.xlsx`. -/
def template_key (process_id : String) : String :=
  "templates/" ++ process_id ++ "_input.xlsx"

/-- Source object key: `source-files/<processId>_<i>_<originalName>`. -/
def source_key (process_id : String) (i : Nat) (name : String) : String :=
  "source-files/" ++ process_id ++ "_" ++ natStr i ++ "_" ++ name

/-- All source keys a job derives from its file list, index-paired as by
`enumerate`. -/
def allSourceKeys (process_id : String) (names : List String) : List String :=
  names.enum.map (fun p => source_key process_id p.1 p.2)

/-- Observable outcome of the source-upload loop: the recorded keys, the
keys for which an upload was attempted, and the index of the first failed
upload if any. -/
structure SourceUploadResult where
  source_keys : List String
  attempted : List String
  failed : Option Nat
deriving DecidableEq

/-- The source-upload loop of `process_files`, starting at index `i`:
upload each file under its derived key, record the key on success, and
return immediately on the first failure. `uploadOk` is the S3 client's
per-key success behaviour. -/
def uploadSourcesAux (process_id : String) (uploadOk : String → Bool) :
    Nat → List String → SourceUploadResult
  | _, [] => ⟨[], [], none⟩
  | i, name :: rest =>
    let key := source_key process_id i name
    if uploadOk key then
      let r := uploadSourcesAux process_id uploadOk (i + 1) rest
      ⟨key :: r.source_keys, key :: r.attempted, r.failed⟩
    else ⟨[], [key], some i⟩

/-- The source-upload loop starting from index 0, as in the source. -/
def uploadSources (process_id : String) (names : List String)
    (uploadOk : String → Bool) : SourceUploadResult :=
  uploadSourcesAux process_id uploadOk 0 names

/-! ## Result interpreter -/

/-- Aggregate counters displayed after a 200 response. -/
structure Counters where
  success : Nat
  failure : Nat
  extracted : Int
deriving DecidableEq

/-- Python equality of a looked-up status value with the string
`'success'`. -/
def statusIsSuccess : Option Json → Bool
  | some (.str s) => s = "success"
  | _ => false

/-- Whether a result record counts as a success:
`r.get('status') == 'success'`. Fails (`none`, a raised exception) when
the record is not a dictionary. -/
def recordIsSuccess : Json → Option Bool
  | .obj fields => some (statusIsSuccess (Json.lookup "status" fields))
  | _ => none

/-- The record's extracted-items contribution:
`r.get('extracted_items', 0)` guarded by `'extracted_items' in r`.
`some none` means the field is absent (record skipped); `none` means an
exception (non-dictionary record, or a value that cannot be summed as an
integer — Python `bool` sums as 0/1). -/
def recordExtracted : Json → Option (Option Int)
  | .obj fields =>
    match Json.lookup "extracted_items" fields with
    | Option.none => some none
    | some (.num v) => some (some v)
    | some (.bool b) => some (some (if b then 1 else 0))
    | some _ => none
  | _ => none

/-- The comprehension `len([r for r in results if r.get('status') == 'success'])`:
count the success records, propagating a raised exception as `none`. -/
def successCount : List Json → Option Nat
  | [] => some 0
  | r :: rest => do
    let b ← recordIsSuccess r
    let c ← successCount rest
    pure ((if b then 1 else 0) + c)

/-- The comprehension
`sum(r.get('extracted_items', 0) for r in results if 'extracted_items' in r)`:
sum the extracted-items field over exactly the records that carry it,
propagating a raised exception as `none`. -/
def extractedSum : List Json → Option Int
  | [] => some 0
  | r :: rest => do
    let eo ← recordExtracted r
    let s ← extractedSum rest
    pure (eo.getD 0 + s)

/-- The aggregate counters of `process_files` lines 514–522:
`success_count` is the number of records whose status equals
`"success"`, the failure metric is `len(results) - success_count`, and
the extracted-items metric sums `extracted_items` over exactly the
records that carry the field. `none` models a raised exception. -/
def computeCounters (results : List Json) : Option Counters := do
  let success_count ← successCount results
  let extracted ← extractedSum results
  pure ⟨success_count, results.length - success_count, extracted⟩

/-- Modelled from the spec: the extracted-items aggregate as §4.4 words
it for claim C2 — "sum of extracted-item counts across successful
records", a missing field defaulting to zero. Stated only to compare with
the source's `computeCounters`. -/
def specExtractedSum : List Json → Option Int
  | [] => some 0
  | r :: rest => do
    let b ← recordIsSuccess r
    let eo ← recordExtracted r
    let s ← specExtractedSum rest
    pure (if b then eo.getD 0 + s else s)

/-- Body extraction of `process_files` line 487: a string body is decoded
with `json.loads`, a structured body is used as-is, an absent body
defaults to the empty object. `none` models a raised decode error. -/
def decodeBody (lambda_result : Json) : Option Json :=
  match lambda_result.get? "body" with
  | some (.str s) => parseJson s
  | some j => some j
  | Option.none => some (.obj [])

/-- Python's `body.get(key, default)` on the decoded body; `none` when the
body is not a dictionary. -/
def dictGetD (j : Json) (key : String) (dflt : Json) : Option Json :=
  match j with
  | .obj fields => some ((Json.lookup key fields).getD dflt)
  | _ => none

/-- The two lists `process_files` reads off the decoded body:
`body.get('results', [])` and `body.get('processed_files', [])`. -/
def interpretBody (lambda_result : Json) : Option (Json × Json) := do
  let body ← decodeBody lambda_result
  let results ← dictGetD body "results" (.arr [])
  let processed ← dictGetD body "processed_files" (.arr [])
  pure (results, processed)

/-! ## Delivery stage (`download_files`) -/

/-- Python's `Path(key).name`: the part of the key after the last `/`. -/
def baseName (key : String) : String :=
  String.mk ((key.data.reverse.takeWhile (fun c => c ≠ '/')).reverse)

/-- What `download_files` offers the user: nothing, one direct file, one
zip archive, or separately retrievable items. File contents are modelled
as strings of bytes. -/
inductive Deliverable where
  | nothingOffered : Deliverable
  | single (fileName : String) (data : String) : Deliverable
  | archive (fileName : String) (entries : List (String × String)) : Deliverable
  | separate (items : List (String × String)) : Deliverable
deriving DecidableEq

/-- Shallow embedding of `download_files`. `fetch` is the S3 download
behaviour (`none` models a failed `get_object`); `now` is the timestamp
string `%Y%m%d_%H%M%S` used in the zip name. A single reference is fetched
and offered under its base name; several references are either zipped —
each retrievable entry under its base name — or offered separately. -/
def download_files (processed_files : List String) (zip_results : Bool)
    (now : String) (fetch : String → Option String) : Deliverable :=
  match processed_files with
  | [file_key] =>
    match fetch file_key with
    | some file_data => .single (baseName file_key) file_data
    | none => .nothingOffered
  | _ =>
    if zip_results then
      .archive ("excel_results_" ++ now ++ ".zip")
        (processed_files.filterMap
          (fun k => (fetch k).map (fun d => (baseName k, d))))
    else
      .separate (processed_files.filterMap
        (fun k => (fetch k).map (fun d => (baseName k, d))))

/-- Pipeline-level delivery: `process_files` calls `download_files` only
inside `if processed_files:`, so an empty reference list yields no
deliverable. -/
def deliver (processed_files : List String) (zip_results : Bool)
    (now : String) (fetch : String → Option String) : Deliverable :=
  if processed_files.isEmpty then .nothingOffered
  else download_files processed_files zip_results now fetch

/-! ## Retention stage (`cleanup_files`) -/

/-- Outcome of the cleanup loop: the keys deleted before any failure, and
the warning message when a deletion raised. -/
structure CleanupOutcome where
  deleted : List String
  warning : Option String
deriving DecidableEq

/-- The deletion loop of `cleanup_files`: delete keys in order; the first
raised exception aborts the loop and is reported as a warning. -/
def runDeletes (deleteObj : String → Except String Unit) :
    List String → List String × Option String
  | [] => ([], none)
  | key :: rest =>
    match deleteObj key with
    | .ok _ =>
      let r := runDeletes deleteObj rest
      (key :: r.1, r.2)
    | .error e => ([], some e)

/-- Shallow embedding of `cleanup_files`: delete the template key and all
source keys; any failure is caught and surfaced only as a warning. -/
def cleanup_files (deleteObj : String → Except String Unit)
    (templateKey : String) (sourceKeys : List String) : CleanupOutcome :=
  let r := runDeletes deleteObj (templateKey :: sourceKeys)
  ⟨r.1, r.2⟩

/-- Everything `process_files` does after interpreting a 200 response
(lines 524–541): deliver when there are processed files, clean up unless
the caller keeps files — both only inside `if processed_files:` — and
finish the job successfully in every case. -/
structure Post200 where
  delivered : Deliverable
  cleanupRun : Option CleanupOutcome
  jobSucceeded : Bool
deriving DecidableEq

/-- The delivery-and-retention tail of the 200 branch of
`process_files`. -/
def post200Step (templateKey : String) (sourceKeys : List String)
    (processed_files : List String) (zip_results keep_files : Bool)
    (now : String) (fetch : String → Option String)
    (deleteObj : String → Except String Unit) : Post200 :=
  if processed_files.isEmpty then ⟨.nothingOffered, none, true⟩
  else
    ⟨download_files processed_files zip_results now fetch,
     if keep_files then none
     else some (cleanup_files deleteObj templateKey sourceKeys),
     true⟩

/-! ## Progress reporting -/

/-- The progress value reported after the `i`-th source upload:
`min(0.1 + (i + 1) * 0.25 / n, 1.0)`. -/
def uploadProgressValue (n i : Nat) : ℚ :=
  min (1/10 + ((i : ℚ) + 1) * (1/4) / (n : ℚ)) 1

/-- Progress values emitted by the source-upload loop over files
`i, i+1, …` while uploads succeed; a failing upload emits nothing and
aborts. -/
def uploadProgressTrace (n : Nat) (srcOk : Nat → Bool) :
    Nat → Nat → List ℚ
  | _, 0 => []
  | i, remaining + 1 =>
    if srcOk i then
      uploadProgressValue n i :: uploadProgressTrace n srcOk (i + 1) remaining
    else []

/-- Whether the source-upload loop over indices `i, …, i+remaining-1`
completes without a failure. -/
def uploadsComplete (srcOk : Nat → Bool) : Nat → Nat → Bool
  | _, 0 => true
  | i, remaining + 1 => srcOk i && uploadsComplete srcOk (i + 1) remaining

/-- Every progress value `process_files` reports over one run, in order:
the initial empty bar, 0.1 before uploads, one value per successful
source upload, then 0.4, 0.6, 0.8, 0.9 and 1.0 as the later stages are
reached. `templateOk` is the template upload outcome, `srcOk` the
per-index source upload outcomes, `lambdaOk` whether the invocation
returned a result, `is200` whether its status code was 200, and
`hasProcessed` whether the body listed processed files. -/
def progressTrace (n : Nat) (templateOk : Bool) (srcOk : Nat → Bool)
    (lambdaOk is200 hasProcessed : Bool) : List ℚ :=
  [0, 1/10] ++
    if templateOk then
      uploadProgressTrace n srcOk 0 n ++
        if uploadsComplete srcOk 0 n then
          [2/5] ++
            if lambdaOk then
              [3/5] ++
                if is200 then
                  [4/5] ++ (if hasProcessed then [9/10] else []) ++ [1]
                else []
            else []
        else []
    else []

/-! ## Helper lemmas -/

lemma runDeletes_all_ok (deleteObj : String → Except String Unit) :
    ∀ ks : List String, (∀ k ∈ ks, deleteObj k = .ok ()) →
      runDeletes deleteObj ks = (ks, none)
  | [], _ => rfl
  | k :: rest, h => by
    have hk := h k (List.mem_cons_self k rest)
    have hrest :=
      runDeletes_all_ok deleteObj rest (fun x hx => h x (List.mem_cons_of_mem _ hx))
    simp [runDeletes, hk, hrest]

lemma runDeletes_deleted_subset (deleteObj : String → Except String Unit) :
    ∀ ks : List String, ∀ k ∈ (runDeletes deleteObj ks).1, k ∈ ks := by
  intro ks
  induction ks with
  | nil => intro k hk; exact absurd hk (by simp [runDeletes])
  | cons a rest ih =>
    intro k hk
    by_cases ha : ∃ u, deleteObj a = .ok u
    · obtain ⟨u, hu⟩ := ha
      rw [runDeletes, hu] at hk
      simp only [List.mem_cons] at hk ⊢
      rcases hk with h | h
      · exact .inl h
      · exact .inr (ih k h)
    · have : ∃ e, deleteObj a = .error e := by
        cases h : deleteObj a with
        | ok u => exact absurd ⟨u, h⟩ ha
        | error e => exact ⟨e, rfl⟩
      obtain ⟨e, he⟩ := this
      rw [runDeletes, he] at hk
      exact absurd hk (by simp)

/-! ## Claim theorems -/

/-- C1: for every preferred container name the resolver returns the
probed name unchanged on a successful probe; on an access-denied probe it
lists the visible containers and, when any exist, returns the first
listed one; on any other probe error (a 404 not-found included)
resolution fails with `none` and the pipeline does not proceed. -/
theorem resolver_probe_fallback_contract (cfg : AwsConfig) (env : S3Env) :
    (env.headBucket = .ok → get_or_create_bucket cfg env = some cfg.bucket_name)
    ∧ (∀ e b rest, env.headBucket = .err e → isAccessDenied e = true →
        env.listBuckets = .ok (b :: rest) →
        get_or_create_bucket cfg env = some b)
    ∧ (∀ e, env.headBucket = .err e → isAccessDenied e = false →
        get_or_create_bucket cfg env = none
        ∧ pipelineProceeds (get_or_create_bucket cfg env) = false) := by
  refine ⟨fun h => ?_, fun e b rest h hd hl => ?_, fun e h hd => ?_⟩
  · simp [get_or_create_bucket, h]
  · simp [get_or_create_bucket, h, hd, hl]
  · constructor <;> simp [get_or_create_bucket, pipelineProceeds, h, hd]

/-- Witness for the resolver contract: a successful probe keeps the
configured name, a 403 probe falls back to the first listed bucket, and a
404 probe fails resolution. -/
theorem resolver_probe_fallback_contract_witness :
    get_or_create_bucket ⟨"ap-northeast-1", "excel-aggregator-20250714-095126"⟩
        ⟨.ok, .ok [], fun _ => .ok (), "20250714-095126"⟩
      = some "excel-aggregator-20250714-095126"
    ∧ get_or_create_bucket ⟨"ap-northeast-1", "denied-bucket"⟩
        ⟨.err "An error occurred (403) when calling the HeadBucket operation: Forbidden",
         .ok ["first-visible-bucket", "second-visible-bucket"],
         fun _ => .ok (), "20250714-095126"⟩
      = some "first-visible-bucket"
    ∧ get_or_create_bucket ⟨"ap-northeast-1", "missing-bucket"⟩
        ⟨.err "An error occurred (404) when calling the HeadBucket operation: Not Found",
         .ok [], fun _ => .ok (), "20250714-095126"⟩
      = none := by
  refine ⟨(resolver_probe_fallback_contract _ _).1 rfl,
    (resolver_probe_fallback_contract _ _).2.1 _ "first-visible-bucket" _ rfl
      (by decide) rfl,
    ((resolver_probe_fallback_contract _ _).2.2 _ rfl (by decide)).1⟩

/-- C5: counterexample — with no visible container and a creation call
failing with an "already exists" error, the resolver returns `none`: the
error is treated as a resolution failure, not caught as success, so the
claimed idempotent-on-retry guard does not exist in the code. -/
theorem already_exists_error_fails_resolution :
    get_or_create_bucket ⟨"ap-northeast-1", "excel-aggregator-20250714-095126"⟩
      ⟨.err "403 Forbidden", .ok [],
       fun _ => .error "BucketAlreadyOwnedByYou", "20250714-095126"⟩ = none := by
  rfl

/-- C5 (amended): when no container is visible the resolver synthesizes
the timestamp-suffixed name `excel-aggregator-<now>` and issues one
creation request for it, omitting the location constraint exactly when
the configured region is the default `us-east-1` and supplying the region
otherwise; the synthesized name is returned on creation success, while
any creation error — an "already exists" error included — is treated as a
resolution failure. -/
theorem create_branch_contract (cfg : AwsConfig) (env : S3Env) (e : String)
    (hprobe : env.headBucket = .err e) (hdenied : isAccessDenied e = true)
    (hlist : env.listBuckets = .ok []) :
    get_or_create_bucket cfg env =
      (match env.createBucket
          ⟨"excel-aggregator-" ++ env.now,
           if cfg.region = "us-east-1" then none else some cfg.region⟩ with
       | .ok _ => some ("excel-aggregator-" ++ env.now)
       | .error _ => none) := by
  by_cases hr : cfg.region = "us-east-1" <;>
    simp [get_or_create_bucket, hprobe, hdenied, hlist, hr]

/-- Witness for the creation branch: in the default region the request
carries no location constraint and a successful creation resolves to the
synthesized timestamp-suffixed name. -/
theorem create_branch_contract_witness :
    get_or_create_bucket ⟨"us-east-1", "denied-bucket"⟩
      ⟨.err "403 Forbidden", .ok [],
       fun c => if c.locationConstraint = none then .ok () else .error "constraint",
       "20250714-095126"⟩
      = some "excel-aggregator-20250714-095126" := by
  have h := create_branch_contract ⟨"us-east-1", "denied-bucket"⟩
    ⟨.err "403 Forbidden", .ok [],
     fun c => if c.locationConstraint = none then .ok () else .error "constraint",
     "20250714-095126"⟩ "403 Forbidden" rfl (by decide) rfl
  simpa using h

/-- C6: the retention stage is a no-op when the caller requests
retention; otherwise it deletes exactly the template key and the source
keys — never any other key, in particular never a processed-file
reference — and any deletion failure surfaces only as a warning while the
job still finishes successfully for every deletion behaviour. -/
theorem retention_stage_contract (templateKey : String) (sourceKeys : List String)
    (deleteObj : String → Except String Unit) (processed_files : List String)
    (zip_results : Bool) (now : String) (fetch : String → Option String) :
    (post200Step templateKey sourceKeys processed_files zip_results true now
        fetch deleteObj).cleanupRun = none
    ∧ ((∀ k ∈ templateKey :: sourceKeys, deleteObj k = .ok ()) →
        cleanup_files deleteObj templateKey sourceKeys
          = ⟨templateKey :: sourceKeys, none⟩)
    ∧ (∀ k ∈ (cleanup_files deleteObj templateKey sourceKeys).deleted,
        k = templateKey ∨ k ∈ sourceKeys)
    ∧ (∀ keep_files : Bool,
        (post200Step templateKey sourceKeys processed_files zip_results keep_files
          now fetch deleteObj).jobSucceeded = true) := by
  refine ⟨?_, fun h => ?_, fun k hk => ?_, fun keep => ?_⟩
  · cases processed_files <;> simp [post200Step]
  · simp [cleanup_files, runDeletes_all_ok deleteObj _ h]
  · have := runDeletes_deleted_subset deleteObj (templateKey :: sourceKeys) k hk
    simpa using this
  · cases processed_files <;> simp [post200Step]

/-- Witness for the retention contract: with an always-succeeding delete
behaviour the stage deletes the template key and the single source key. -/
theorem retention_stage_contract_witness :
    cleanup_files (fun _ => .ok ()) "templates/abc12345_input.xlsx"
        ["source-files/abc12345_0_plan.xlsx"]
      = ⟨["templates/abc12345_input.xlsx", "source-files/abc12345_0_plan.xlsx"], none⟩ :=
  (retention_stage_contract "templates/abc12345_input.xlsx"
    ["source-files/abc12345_0_plan.xlsx"] (fun _ => .ok ())
    ["outputs/abc12345_plan.xlsx"] true "20250714_095126"
    (fun _ => none)).2.1 (fun _ _ => rfl)

/-- C10: a 200 response whose processed-files list is empty skips both
the delivery step and the cleanup step entirely — no deliverable is
offered and no deletion is attempted, even when the caller did not
request retention — while the job still finishes successfully. -/
theorem empty_processed_files_frame (templateKey : String)
    (sourceKeys : List String) (zip_results keep_files : Bool) (now : String)
    (fetch : String → Option String) (deleteObj : String → Except String Unit) :
    post200Step templateKey sourceKeys [] zip_results keep_files now fetch deleteObj
      = ⟨.nothingOffered, none, true⟩ := rfl

/-- C3: delivery with no references offers nothing; a single reference is
fetched and offered directly under its base file name regardless of the
packaging preference, and yields nothing if its download fails; several
references are either bundled into one timestamp-named archive holding
exactly the retrievable entries under their base names, or offered
separately, and a reference that fails to download is skipped without
aborting the rest. -/
theorem delivery_packaging_contract (zip_results : Bool) (now : String)
    (fetch : String → Option String) :
    deliver [] zip_results now fetch = .nothingOffered
    ∧ (∀ k d, fetch k = some d →
        deliver [k] zip_results now fetch = .single (baseName k) d)
    ∧ (∀ k, fetch k = none → deliver [k] zip_results now fetch = .nothingOffered)
    ∧ (∀ ps : List String, 1 < ps.length →
        deliver ps true now fetch =
          .archive ("excel_results_" ++ now ++ ".zip")
            (ps.filterMap (fun k => (fetch k).map (fun d => (baseName k, d)))))
    ∧ (∀ ps : List String, 1 < ps.length →
        deliver ps false now fetch =
          .separate (ps.filterMap (fun k => (fetch k).map (fun d => (baseName k, d))))) := by
  refine ⟨rfl, fun k d h => ?_, fun k h => ?_, fun ps hps => ?_, fun ps hps => ?_⟩
  · simp [deliver, download_files, h]
  · simp [deliver, download_files, h]
  · match ps, hps with
    | a :: b :: rest, _ => simp [deliver, download_files]
  · match ps, hps with
    | a :: b :: rest, _ => simp [deliver, download_files]

/-- Witness for the delivery contract: one retrievable reference is
offered directly under its base name, and two references with the bundle
preference — one of which fails to download — produce a timestamp-named
archive holding exactly the retrievable entry. -/
theorem delivery_packaging_contract_witness :
    deliver ["outputs/job1_A.xlsx"] true "20250714_095126"
        (fun k => if k = "outputs/job1_B.xlsx" then none else some "bytesA")
      = .single "job1_A.xlsx" "bytesA"
    ∧ deliver ["outputs/job1_A.xlsx", "outputs/job1_B.xlsx"] true "20250714_095126"
        (fun k => if k = "outputs/job1_B.xlsx" then none else some "bytesA")
      = .archive "excel_results_20250714_095126.zip" [("job1_A.xlsx", "bytesA")] := by
  constructor
  · exact (delivery_packaging_contract true "20250714_095126" _).2.1
      "outputs/job1_A.xlsx" "bytesA" rfl
  · have h := (delivery_packaging_contract true "20250714_095126"
      (fun k => if k = "outputs/job1_B.xlsx" then none else some "bytesA")).2.2.2.1
      ["outputs/job1_A.xlsx", "outputs/job1_B.xlsx"] (by decide)
    simpa using h

lemma uploadSourcesAux_all_ok (process_id : String) (uploadOk : String → Bool) :
    ∀ (names : List String) (start : Nat),
      (∀ j, (hj : j < names.length) →
        uploadOk (source_key process_id (start + j) (names.get ⟨j, hj⟩)) = true) →
      (uploadSourcesAux process_id uploadOk start names).source_keys.length
          = names.length
      ∧ (uploadSourcesAux process_id uploadOk start names).failed = none := by
  intro names
  induction names with
  | nil => intro start _; exact ⟨rfl, rfl⟩
  | cons name rest ih =>
    intro start h
    have h0 : uploadOk (source_key process_id start name) = true := by
      have hx := h 0 (by simp)
      rw [Nat.add_zero] at hx
      exact hx
    have hrest := ih (start + 1) (fun j hj => by
      have hj' : j + 1 < (name :: rest).length := by simpa using Nat.succ_lt_succ hj
      have hx := h (j + 1) hj'
      have e : start + (j + 1) = start + 1 + j := by omega
      rw [e] at hx
      exact hx)
    simp [uploadSourcesAux, h0, hrest.1, hrest.2]

lemma uploadSourcesAux_first_fail (process_id : String) (uploadOk : String → Bool) :
    ∀ (names : List String) (start i : Nat) (hi : i < names.length),
      (∀ j, (hj : j < i) →
        uploadOk (source_key process_id (start + j)
          (names.get ⟨j, Nat.lt_trans hj hi⟩)) = true) →
      uploadOk (source_key process_id (start + i) (names.get ⟨i, hi⟩)) = false →
      (uploadSourcesAux process_id uploadOk start names).source_keys.length = i
      ∧ (uploadSourcesAux process_id uploadOk start names).failed = some (start + i)
      ∧ (uploadSourcesAux process_id uploadOk start names).attempted.length = i + 1 := by
  intro names
  induction names with
  | nil => intro start i hi; exact absurd hi (by simp)
  | cons name rest ih =>
    intro start i hi hok hfail
    cases i with
    | zero =>
      have hfail0 : uploadOk (source_key process_id start name) = false := by
        rw [Nat.add_zero] at hfail
        exact hfail
      simp [uploadSourcesAux, hfail0]
    | succ k =>
      have h0 : uploadOk (source_key process_id start name) = true := by
        have hx := hok 0 (Nat.succ_pos k)
        rw [Nat.add_zero] at hx
        exact hx
      have hk : k < rest.length := by simpa using Nat.lt_of_succ_lt_succ hi
      have hfail' : uploadOk (source_key process_id (start + 1 + k)
          (rest.get ⟨k, hk⟩)) = false := by
        have e : start + (k + 1) = start + 1 + k := by omega
        rw [e] at hfail
        exact hfail
      have hok' : ∀ j, (hj : j < k) →
          uploadOk (source_key process_id (start + 1 + j)
            (rest.get ⟨j, Nat.lt_trans hj hk⟩)) = true := fun j hj => by
        have hx := hok (j + 1) (Nat.succ_lt_succ hj)
        have e : start + (j + 1) = start + 1 + j := by omega
        rw [e] at hx
        exact hx
      have hrest := ih (start + 1) k hk hok' hfail'
      have e2 : start + 1 + k = start + (k + 1) := by omega
      refine ⟨?_, ?_, ?_⟩
      · simp [uploadSourcesAux, h0, hrest.1]
      · rw [← e2]
        simp [uploadSourcesAux, h0, hrest.2.1]
      · simp [uploadSourcesAux, h0, hrest.2.2]

/-- C4: the transfer stage uploads source files in order; when every
upload succeeds the recorded source keys number exactly the input files
and no failure is reported, and when the upload at index `i` is the first
to fail the stage reports index `i` as the failed file, has recorded
exactly `i` source keys, and has attempted no upload beyond index `i`. -/
theorem transfer_fail_fast_contract (process_id : String) (names : List String)
    (uploadOk : String → Bool) :
    ((∀ j, (hj : j < names.length) →
        uploadOk (source_key process_id j (names.get ⟨j, hj⟩)) = true) →
      (uploadSources process_id names uploadOk).source_keys.length = names.length
      ∧ (uploadSources process_id names uploadOk).failed = none)
    ∧ (∀ i, (hi : i < names.length) →
        (∀ j, (hj : j < i) →
          uploadOk (source_key process_id j (names.get ⟨j, Nat.lt_trans hj hi⟩)) = true) →
        uploadOk (source_key process_id i (names.get ⟨i, hi⟩)) = false →
        (uploadSources process_id names uploadOk).source_keys.length = i
        ∧ (uploadSources process_id names uploadOk).failed = some i
        ∧ (uploadSources process_id names uploadOk).attempted.length = i + 1) := by
  constructor
  · intro h
    exact uploadSourcesAux_all_ok process_id uploadOk names 0
      (fun j hj => by simpa using h j hj)
  · intro i hi hok hfail
    have := uploadSourcesAux_first_fail process_id uploadOk names 0 i hi
      (fun j hj => by simpa using hok j hj) (by simpa using hfail)
    simpa [uploadSources] using this

/-- Witness for the transfer contract: with two source files whose second
upload fails, the stage records exactly one source key, reports failure
at index 1, and attempts exactly two uploads. -/
theorem transfer_fail_fast_contract_witness :
    (uploadSources "job1" ["a.xlsx", "b.xlsx"]
        (fun k => !(k == source_key "job1" 1 "b.xlsx"))).source_keys.length = 1
    ∧ (uploadSources "job1" ["a.xlsx", "b.xlsx"]
        (fun k => !(k == source_key "job1" 1 "b.xlsx"))).failed = some 1
    ∧ (uploadSources "job1" ["a.xlsx", "b.xlsx"]
        (fun k => !(k == source_key "job1" 1 "b.xlsx"))).attempted.length = 1 + 1 :=
  (transfer_fail_fast_contract "job1" ["a.xlsx", "b.xlsx"]
      (fun k => !(k == source_key "job1" 1 "b.xlsx"))).2 1 (by decide)
    (fun j hj => by
      match j, hj with
      | 0, _ => rfl)
    (by rfl)

/-- C2: counterexample — a failure record that carries `extracted_items`
is included in the code's extracted-items aggregate (value 5), whereas
the sum over successful records only, as the claim states it, is 0: the
aggregate is not restricted to successful records. -/
theorem extracted_sum_includes_failure_records :
    computeCounters [.obj [("status", .str "failure"), ("extracted_items", .num 5)]]
      = some ⟨0, 1, 5⟩
    ∧ specExtractedSum [.obj [("status", .str "failure"), ("extracted_items", .num 5)]]
      = some 0 := ⟨rfl, rfl⟩

lemma successCount_cons_eq (r : Json) (rest : List Json) (b : Bool) (c : Nat)
    (hr : recordIsSuccess r = some b) (hrest : successCount rest = some c) :
    successCount (r :: rest) = some ((if b then 1 else 0) + c) := by
  simp [successCount, hr, hrest]

lemma extractedSum_cons_eq (r : Json) (rest : List Json) (eo : Option Int) (s : Int)
    (hr : recordExtracted r = some eo) (hrest : extractedSum rest = some s) :
    extractedSum (r :: rest) = some (eo.getD 0 + s) := by
  simp [extractedSum, hr, hrest]

lemma successCount_of_map : ∀ (results : List Json) (rs : List (Bool × Option Int)),
    results.map recordIsSuccess = rs.map (fun p => some p.1) →
    successCount results = some ((rs.map Prod.fst).count true) := by
  intro results
  induction results with
  | nil =>
    intro rs hs
    cases rs with
    | nil => rfl
    | cons p ps => exact absurd hs (by simp)
  | cons r rest ih =>
    intro rs hs
    cases rs with
    | nil => exact absurd hs (by simp)
    | cons p ps =>
      simp only [List.map_cons, List.cons.injEq] at hs
      have hrec := ih ps hs.2
      rw [successCount_cons_eq r rest p.1 _ hs.1 hrec]
      by_cases hp : p.1 <;> simp [hp, List.count_cons] <;> omega

lemma extractedSum_of_map : ∀ (results : List Json) (rs : List (Bool × Option Int)),
    results.map recordExtracted = rs.map (fun p => some p.2) →
    extractedSum results = some ((rs.filterMap Prod.snd).sum) := by
  intro results
  induction results with
  | nil =>
    intro rs he
    cases rs with
    | nil => rfl
    | cons p ps => exact absurd he (by simp)
  | cons r rest ih =>
    intro rs he
    cases rs with
    | nil => exact absurd he (by simp)
    | cons p ps =>
      simp only [List.map_cons, List.cons.injEq] at he
      have hrec := ih ps he.2
      rw [extractedSum_cons_eq r rest p.2 _ he.1 hrec]
      cases hp : p.2 <;> simp [hp, List.filterMap_cons]

/-- C2 (amended): for every well-formed 200-response results list —
described here by the semantic content `rs` of its records, a
success flag and an optional extracted-items count each — the interpreter
computes the success count as the number of records whose status equals
"success", the failure count as the total record count minus the success
count, and the extracted-items aggregate as the sum of extracted-item
counts over exactly the records that carry the field, regardless of their
status, treating a missing field as contributing nothing rather than
failing; for the two-record scenario (A success with 12 extracted items,
B failure without the field) it reports success count 1, failure count 1
and extracted items 12. -/
theorem counters_contract (results : List Json) (rs : List (Bool × Option Int))
    (hs : results.map recordIsSuccess = rs.map (fun p => some p.1))
    (he : results.map recordExtracted = rs.map (fun p => some p.2)) :
    computeCounters results
      = some ⟨(rs.map Prod.fst).count true,
              rs.length - (rs.map Prod.fst).count true,
              (rs.filterMap Prod.snd).sum⟩
    ∧ computeCounters
        [.obj [("source_file", .str "A.xlsx"), ("status", .str "success"),
               ("extracted_items", .num 12)],
         .obj [("source_file", .str "B.xlsx"), ("status", .str "failure")]]
      = some ⟨1, 1, 12⟩ := by
  refine ⟨?_, rfl⟩
  have hlen : results.length = rs.length := by
    have := congrArg List.length hs
    simpa using this
  have hsc := successCount_of_map results rs hs
  have hes := extractedSum_of_map results rs he
  simp [computeCounters, hsc, hes, hlen]

/-- Witness for the counters contract at the two-record scenario: record
A succeeds with 12 extracted items and record B fails without the field,
yielding success count 1, failure count 1 and 12 extracted items. -/
theorem counters_contract_witness :
    computeCounters
        [.obj [("source_file", .str "A.xlsx"), ("status", .str "success"),
               ("extracted_items", .num 12)],
         .obj [("source_file", .str "B.xlsx"), ("status", .str "failure")]]
      = some ⟨(([(true, some (12 : Int)), (false, none)].map Prod.fst).count true),
              ([(true, some (12 : Int)), (false, none)].length
                - (([(true, some (12 : Int)), (false, none)].map Prod.fst).count true)),
              (([(true, some (12 : Int)), (false, none)].filterMap Prod.snd).sum)⟩ :=
  (counters_contract
    [.obj [("source_file", .str "A.xlsx"), ("status", .str "success"),
           ("extracted_items", .num 12)],
     .obj [("source_file", .str "B.xlsx"), ("status", .str "failure")]]
    [(true, some 12), (false, none)] rfl rfl).1

/-- C7: a 200 invocation result whose body arrives as a string decoding
to a structured object is interpreted exactly as one whose body arrives
as that object directly: both decode to the same body, and the
result-record and processed-file lists read off them coincide. -/
theorem body_two_forms_agree (r1 r2 : Json) (s : String)
    (fields : List (String × Json))
    (h200a : r1.get? "statusCode" = some (.num 200))
    (h200b : r2.get? "statusCode" = some (.num 200))
    (hb1 : r1.get? "body" = some (.str s))
    (hb2 : r2.get? "body" = some (.obj fields))
    (hparse : parseJson s = some (.obj fields)) :
    decodeBody r1 = some (.obj fields)
    ∧ decodeBody r2 = some (.obj fields)
    ∧ interpretBody r1 = interpretBody r2 := by
  have d1 : decodeBody r1 = some (.obj fields) := by
    simp [decodeBody, hb1, hparse]
  have d2 : decodeBody r2 = some (.obj fields) := by
    simp [decodeBody, hb2]
  exact ⟨d1, d2, by simp [interpretBody, d1, d2]⟩

/-- Witness for the two-form body contract: a concrete string-encoded
body parses to the structured body and both invocation results interpret
identically. -/
theorem body_two_forms_agree_witness :
    parseJson "\x7b\"results\": [12], \"processed_files\": [\"outputs/a.xlsx\"]\x7d"
      = some (.obj [("results", .arr [.num 12]),
                    ("processed_files", .arr [.str "outputs/a.xlsx"])])
    ∧ interpretBody (.obj [("statusCode", .num 200),
        ("body", .str "\x7b\"results\": [12], \"processed_files\": [\"outputs/a.xlsx\"]\x7d")])
      = interpretBody (.obj [("statusCode", .num 200),
          ("body", .obj [("results", .arr [.num 12]),
                         ("processed_files", .arr [.str "outputs/a.xlsx"])])]) :=
  ⟨rfl,
   (body_two_forms_agree
      (.obj [("statusCode", .num 200),
        ("body", .str "\x7b\"results\": [12], \"processed_files\": [\"outputs/a.xlsx\"]\x7d")])
      (.obj [("statusCode", .num 200),
        ("body", .obj [("results", .arr [.num 12]),
                       ("processed_files", .arr [.str "outputs/a.xlsx"])])])
      "\x7b\"results\": [12], \"processed_files\": [\"outputs/a.xlsx\"]\x7d"
      [("results", .arr [.num 12]), ("processed_files", .arr [.str "outputs/a.xlsx"])]
      rfl rfl rfl rfl rfl).2.2⟩

lemma digitChar_val_eq (d : Nat) (h : d < 10) :
    (Nat.digitChar d).toNat - '0'.toNat = d := by
  interval_cases d <;> decide

lemma digitChar_isDigit (d : Nat) (h : d < 10) :
    (Nat.digitChar d).isDigit = true := by
  interval_cases d <;> decide

lemma digitsVal_append_digit (l : List Char) (c : Char) :
    digitsVal (l ++ [c]) = 10 * digitsVal l + (c.toNat - '0'.toNat) := by
  simp [digitsVal, List.foldl_append]

lemma natCharsAux_val : ∀ (fuel n : Nat), n < fuel →
    digitsVal (natCharsAux fuel n) = n := by
  intro fuel
  induction fuel with
  | zero => intro n h; omega
  | succ f ih =>
    intro n h
    simp only [natCharsAux]
    split
    · next hlt => simpa [digitsVal] using digitChar_val_eq n hlt
    · next hge =>
      have hdiv : n / 10 < n := Nat.div_lt_self (by omega) (by omega)
      rw [digitsVal_append_digit, ih (n / 10) (by omega),
        digitChar_val_eq (n % 10) (Nat.mod_lt _ (by omega))]
      omega

lemma natChars_val (n : Nat) : digitsVal (natChars n) = n :=
  natCharsAux_val (n + 1) n (by omega)

lemma natChars_inj {a b : Nat} (h : natChars a = natChars b) : a = b := by
  have hv := congrArg digitsVal h
  rwa [natChars_val, natChars_val] at hv

lemma natCharsAux_digits : ∀ (fuel n : Nat), ∀ c ∈ natCharsAux fuel n,
    c.isDigit = true := by
  intro fuel
  induction fuel with
  | zero => intro n c hc; exact absurd hc (by simp [natCharsAux])
  | succ f ih =>
    intro n c hc
    simp only [natCharsAux] at hc
    by_cases hlt : n < 10
    · rw [if_pos hlt] at hc
      simp only [List.mem_singleton] at hc
      subst hc
      exact digitChar_isDigit n hlt
    · rw [if_neg hlt] at hc
      rcases List.mem_append.mp hc with h1 | h2
      · exact ih (n / 10) c h1
      · simp only [List.mem_singleton] at h2
        subst h2
        exact digitChar_isDigit (n % 10) (Nat.mod_lt _ (by omega))

lemma natChars_digits (n : Nat) : ∀ c ∈ natChars n, c.isDigit = true :=
  natCharsAux_digits (n + 1) n

lemma takeWhile_digits_append (ds rest : List Char)
    (h : ∀ c ∈ ds, c.isDigit = true) :
    (ds ++ '_' :: rest).takeWhile (fun c => c.isDigit) = ds := by
  induction ds with
  | nil => simp [List.takeWhile_cons]
  | cons c cs ih =>
    have hc := h c (List.mem_cons_self c cs)
    simp [List.takeWhile_cons, hc,
      ih (fun x hx => h x (List.mem_cons_of_mem _ hx))]

lemma digits_underscore_append_inj {d1 d2 r1 r2 : List Char}
    (h1 : ∀ c ∈ d1, c.isDigit = true) (h2 : ∀ c ∈ d2, c.isDigit = true)
    (h : d1 ++ '_' :: r1 = d2 ++ '_' :: r2) : d1 = d2 ∧ r1 = r2 := by
  have ht : d1 = d2 := by
    have hw := congrArg (List.takeWhile (fun c => c.isDigit)) h
    rwa [takeWhile_digits_append _ _ h1, takeWhile_digits_append _ _ h2] at hw
  subst ht
  have hc := List.append_cancel_left h
  exact ⟨rfl, by injection hc⟩

lemma data_natStr (n : Nat) : (natStr n).data = natChars n := rfl

lemma source_key_inj (process_id : String) {i j : Nat} {ni nj : String}
    (h : source_key process_id i ni = source_key process_id j nj) :
    i = j ∧ ni = nj := by
  have hd := congrArg String.data h
  simp only [source_key, String.data_append, List.append_assoc, data_natStr,
    show "_".data = ['_'] from rfl, List.singleton_append] at hd
  have hd2 := List.append_cancel_left (List.append_cancel_left hd)
  have hd3 : natChars i ++ '_' :: ni.data = natChars j ++ '_' :: nj.data := by
    injection hd2
  obtain ⟨hij, hn⟩ := digits_underscore_append_inj
    (natChars_digits i) (natChars_digits j) hd3
  exact ⟨natChars_inj hij, String.ext hn⟩

lemma template_key_ne_source_key (p1 p2 : String) (i : Nat) (n : String) :
    template_key p1 ≠ source_key p2 i n := by
  intro h
  have hd := congrArg String.data h
  simp only [template_key, source_key, String.data_append, List.append_assoc] at hd
  simp [List.cons_append] at hd

lemma enum_nodup {α : Type} (l : List α) : l.enum.Nodup := by
  have hmap : (l.enum.map Prod.fst).Nodup := by
    rw [List.enum_map_fst]
    exact List.nodup_range _
  exact hmap.of_map

/-- C9: the transfer stage writes the template under
`templates/<jobId>_input.xlsx` and the source file at index `i` under
`source-files/<jobId>_<i>_<originalName>`, and for every job identifier
and source-file list all these keys are pairwise distinct. -/
theorem job_object_keys_distinct (process_id : String) (names : List String) :
    (template_key process_id :: allSourceKeys process_id names).Nodup := by
  rw [List.nodup_cons]
  constructor
  · intro hmem
    rw [allSourceKeys] at hmem
    obtain ⟨p, _hp, he⟩ := List.mem_map.mp hmem
    exact template_key_ne_source_key process_id process_id p.1 p.2 he.symm
  · rw [allSourceKeys]
    refine List.Nodup.map_on ?_ (enum_nodup names)
    intro x _hx y _hy hxy
    obtain ⟨hi, hn⟩ := source_key_inj process_id hxy
    cases x
    cases y
    simp only at hi hn
    simp [hi, hn]

lemma uploadProgressValue_lb (n i : Nat) : 1/10 ≤ uploadProgressValue n i := by
  unfold uploadProgressValue
  apply le_min
  · have h : (0 : ℚ) ≤ ((i : ℚ) + 1) * (1/4) / (n : ℚ) := by positivity
    linarith
  · norm_num

lemma uploadProgressValue_ub (n i : Nat) (hi : i < n) :
    uploadProgressValue n i ≤ 7/20 := by
  unfold uploadProgressValue
  have hn : (0 : ℚ) < (n : ℚ) := by
    have hpos : 0 < n := by omega
    exact_mod_cast hpos
  have h1 : ((i : ℚ) + 1) ≤ (n : ℚ) := by exact_mod_cast Nat.succ_le_of_lt hi
  have h2 : ((i : ℚ) + 1) * (1/4) / (n : ℚ) ≤ 1/4 := by
    rw [div_le_iff₀ hn]
    linarith
  calc min (1/10 + ((i : ℚ) + 1) * (1/4) / (n : ℚ)) 1
      ≤ 1/10 + ((i : ℚ) + 1) * (1/4) / (n : ℚ) := min_le_left _ _
    _ ≤ 7/20 := by linarith

lemma uploadProgressValue_mono (n i : Nat) :
    uploadProgressValue n i ≤ uploadProgressValue n (i + 1) := by
  unfold uploadProgressValue
  apply min_le_min _ le_rfl
  push_cast
  have h : ((i : ℚ) + 1) * (1/4) / (n : ℚ)
      ≤ ((i : ℚ) + 1 + 1) * (1/4) / (n : ℚ) := by
    by_cases hz : n = 0
    · subst hz
      norm_num
    · have hn : (0 : ℚ) < (n : ℚ) := by
        exact_mod_cast Nat.pos_of_ne_zero hz
      rw [div_le_div_iff_of_pos_right hn]
      linarith
  linarith

lemma uploadProgressTrace_headOpt (n : Nat) (srcOk : Nat → Bool)
    (i remaining : Nat) :
    (uploadProgressTrace n srcOk i remaining).head? = none
    ∨ (uploadProgressTrace n srcOk i remaining).head?
        = some (uploadProgressValue n i) := by
  cases remaining with
  | zero => exact .inl rfl
  | succ r =>
    by_cases h : srcOk i
    · exact .inr (by simp [uploadProgressTrace, h])
    · exact .inl (by simp [uploadProgressTrace, h])

lemma uploadProgressTrace_chain (n : Nat) (srcOk : Nat → Bool) :
    ∀ remaining i, List.Chain' (· ≤ ·) (uploadProgressTrace n srcOk i remaining) := by
  intro remaining
  induction remaining with
  | zero => intro i; simp [uploadProgressTrace]
  | succ r ih =>
    intro i
    by_cases h : srcOk i
    · simp only [uploadProgressTrace, h, if_true]
      rw [List.chain'_cons']
      refine ⟨fun y hy => ?_, ih (i + 1)⟩
      rcases uploadProgressTrace_headOpt n srcOk (i + 1) r with hh | hh
      · rw [hh] at hy
        exact absurd hy (by simp)
      · rw [hh] at hy
        simp only [Option.mem_some_iff] at hy
        subst hy
        exact uploadProgressValue_mono n i
    · simp [uploadProgressTrace, h]

lemma uploadProgressTrace_mem_bounds (n : Nat) (srcOk : Nat → Bool) :
    ∀ remaining i, i + remaining ≤ n →
      ∀ q ∈ uploadProgressTrace n srcOk i remaining, 1/10 ≤ q ∧ q ≤ 7/20 := by
  intro remaining
  induction remaining with
  | zero => intro i _ q hq; exact absurd hq (by simp [uploadProgressTrace])
  | succ r ih =>
    intro i hle q hq
    by_cases h : srcOk i
    · simp only [uploadProgressTrace, h, if_true, List.mem_cons] at hq
      rcases hq with rfl | hq
      · exact ⟨uploadProgressValue_lb n i, uploadProgressValue_ub n i (by omega)⟩
      · exact ih (i + 1) (by omega) q hq
    · simp [uploadProgressTrace, h] at hq

lemma chain'_le_append_sep {l₁ l₂ : List ℚ} (a : ℚ)
    (h₁ : List.Chain' (· ≤ ·) l₁) (h₂ : List.Chain' (· ≤ ·) l₂)
    (hub : ∀ x ∈ l₁, x ≤ a) (hlb : ∀ y ∈ l₂, a ≤ y) :
    List.Chain' (· ≤ ·) (l₁ ++ l₂) := by
  rw [List.chain'_append]
  refine ⟨h₁, h₂, fun x hx y hy => ?_⟩
  have hxm : x ∈ l₁ := List.mem_of_mem_getLast? hx
  have hym : y ∈ l₂ := List.mem_of_mem_head? hy
  exact le_trans (hub x hxm) (hlb y hym)

/-- C8: for every job with a non-empty source-file list, whatever the
upload, invocation and response outcomes, the sequence of progress values
reported over the whole pipeline run is monotonically non-decreasing and
every reported value lies in the interval `[0, 1]`. -/
theorem progress_values_contract (n : Nat) (hn : 0 < n) (templateOk : Bool)
    (srcOk : Nat → Bool) (lambdaOk is200 hasProcessed : Bool) :
    List.Chain' (· ≤ ·)
      (progressTrace n templateOk srcOk lambdaOk is200 hasProcessed)
    ∧ ∀ q ∈ progressTrace n templateOk srcOk lambdaOk is200 hasProcessed,
        0 ≤ q ∧ q ≤ 1 := by
  cases templateOk with
  | false =>
    constructor
    · norm_num [progressTrace, List.chain'_cons, List.chain'_singleton]
    · intro q hq
      fin_cases hq <;> norm_num
  | true =>
    have hM_chain := uploadProgressTrace_chain n srcOk n 0
    have hM_mem := uploadProgressTrace_mem_bounds n srcOk n 0 (by omega)
    have hS : List.Chain' (· ≤ ·)
          ((if uploadsComplete srcOk 0 n then
            [2/5] ++
              (if lambdaOk then
                [3/5] ++
                  (if is200 then
                    [4/5] ++ (if hasProcessed then [9/10] else []) ++ [1]
                  else [])
              else [])
          else []) : List ℚ)
        ∧ ∀ q ∈ ((if uploadsComplete srcOk 0 n then
            [2/5] ++
              (if lambdaOk then
                [3/5] ++
                  (if is200 then
                    [4/5] ++ (if hasProcessed then [9/10] else []) ++ [1]
                  else [])
              else [])
          else []) : List ℚ), 2/5 ≤ q ∧ q ≤ 1 := by
      cases hU : uploadsComplete srcOk 0 n <;>
        cases lambdaOk <;> cases is200 <;> cases hasProcessed <;>
        exact ⟨by norm_num [List.chain'_cons, List.chain'_singleton],
          by norm_num [List.forall_mem_cons]⟩
    have hMS_chain : List.Chain' (· ≤ ·)
        ((uploadProgressTrace n srcOk 0 n ++
          (if uploadsComplete srcOk 0 n then
            [2/5] ++
              (if lambdaOk then
                [3/5] ++
                  (if is200 then
                    [4/5] ++ (if hasProcessed then [9/10] else []) ++ [1]
                  else [])
              else [])
          else [])) : List ℚ) := by
      refine chain'_le_append_sep (7/20) hM_chain hS.1
        (fun x hx => (hM_mem x hx).2) (fun y hy => ?_)
      have hb := (hS.2 y hy).1
      linarith
    have hexp : progressTrace n true srcOk lambdaOk is200 hasProcessed
        = [0, 1/10] ++ (uploadProgressTrace n srcOk 0 n ++
            (if uploadsComplete srcOk 0 n then
              [2/5] ++
                (if lambdaOk then
                  [3/5] ++
                    (if is200 then
                      [4/5] ++ (if hasProcessed then [9/10] else []) ++ [1]
                    else [])
                else [])
            else [])) := rfl
    rw [hexp]
    constructor
    · refine chain'_le_append_sep (1/10) ?_ hMS_chain (fun x hx => ?_) (fun y hy => ?_)
      · norm_num [List.chain'_cons, List.chain'_singleton]
      · fin_cases hx <;> norm_num
      · rcases List.mem_append.mp hy with hy1 | hy2
        · exact (hM_mem y hy1).1
        · have := (hS.2 y hy2).1
          linarith
    · intro q hq
      rcases List.mem_append.mp hq with hq1 | hq2
      · fin_cases hq1 <;> norm_num
      · rcases List.mem_append.mp hq2 with hqm | hqs
        · have h := hM_mem q hqm
          constructor <;> linarith [h.1, h.2]
        · have h := hS.2 q hqs
          constructor <;> linarith [h.1, h.2]

/-- Witness for the progress contract at a concrete one-file fully
successful run. -/
theorem progress_values_contract_witness :
    0 < 1
    ∧ List.Chain' (· ≤ ·)
        (progressTrace 1 true (fun _ => true) true true true)
    ∧ ∀ q ∈ progressTrace 1 true (fun _ => true) true true true,
        0 ≤ q ∧ q ≤ 1 :=
  ⟨Nat.zero_lt_one,
   (progress_values_contract 1 Nat.zero_lt_one true (fun _ => true) true true true).1,
   (progress_values_contract 1 Nat.zero_lt_one true (fun _ => true) true true true).2⟩

end Zaimu
